import Mathlib

/-!
Shallow embedding of the message mutation pipeline of the DiscordClone
repository (`src/backend/src/controllers/messageController.ts`, routed by
`messageRouter`).  Mongo documents become Lean structures; the database
becomes an explicit `DB` value threaded through each handler; the Socket.IO
emits and the Mongo writes are recorded, in the order the handler performs
them, in a trace of `Effect`s.  Identifier well-formedness mirrors
`mongoose.Types.ObjectId.isValid` on strings: 24 hexadecimal characters.
-/

namespace DiscordClone

/-- A hexadecimal digit, as accepted by a Mongo ObjectId string. -/
def isHexChar (c : Char) : Bool :=
  c.isDigit || (('a' ≤ c) && (c ≤ 'f')) || (('A' ≤ c) && (c ≤ 'F'))

/-- `mongoose.Types.ObjectId.isValid` on a string: 24 hex characters. -/
def isValidObjectId (s : String) : Bool :=
  (s.data.length == 24) && s.data.all isHexChar

/-- One entry of a message's reaction array: an emoji paired with the list
of reacting user ids (`{ emoji, users }` sub-documents). -/
structure Reaction where
  emoji : String
  users : List String
deriving DecidableEq, Repr

/-- A message document.  `createdAt`/`updatedAt` are the mongoose
timestamps, modelled as abstract instants (`Nat`). -/
structure Message where
  id : String
  channel : String
  sender : String
  content : String
  createdAt : Nat
  updatedAt : Nat
  reactions : List Reaction
deriving DecidableEq, Repr

/-- The per-channel summary document: ordered message-id list and the
grow-only sender set (the fields `createMessage` touches). -/
structure Channel where
  id : String
  server : String
  messages : List String
  senders : List String
deriving DecidableEq, Repr

/-- One member entry of a Discord server document: user id plus roles. -/
structure Member where
  user : String
  roles : List String
deriving DecidableEq, Repr

/-- A Discord server document, as queried by the permission check. -/
structure DiscordServer where
  id : String
  members : List Member
deriving DecidableEq, Repr

/-- The persistent state the handlers read and write. -/
structure DB where
  messages : List Message
  channels : List Channel
  servers : List DiscordServer
deriving DecidableEq, Repr

/-- Payload of a Socket.IO emit: a full message or a bare message id. -/
inductive EmitPayload where
  | msg (m : Message)
  | msgId (id : String)
deriving DecidableEq, Repr

/-- One observable step of a handler, recorded in code order. -/
inductive Effect where
  | dbFindMessage (msgId sender : String)
  | dbReadMessage (msgId : String)
  | dbCreateMessage (m : Message)
  | dbDeleteMessage (msgId : String)
  | dbUpdateMessage (msgId content : String)
  | dbSaveMessage (m : Message)
  | dbChannelPush (channelId msgId senderId : String)
  | dbChannelPull (msgId : String)
  | emit (room event : String) (payload : EmitPayload)
deriving DecidableEq, Repr

/-- The JSON response a handler returns, with its HTTP status code. -/
inductive ApiResponse where
  | message (status : Nat) (m : Message)
  | messageList (status : Nat) (ms : List Message)
  | confirmation (status : Nat) (text : String)
  | error (status : Nat) (text : String)
deriving DecidableEq, Repr

/-- Result of running one handler: response, new state, effect trace. -/
structure StepResult where
  resp : ApiResponse
  db : DB
  trace : List Effect
deriving DecidableEq, Repr

def errMissingFields : String := "Missing required fields"
def errInvalidIdFormat : String := "Invalid ID format"
def errChannelNotFound : String := "Channel not found"
def errNoPermSend : String := "You do not have permission to send messages"
def errChannelIdRequired : String := "Channel ID is required"
def errInvalidChannelIdFormat : String := "Invalid channel ID format"
def errNoMessagesFound : String := "No messages found for this channel"
def errMessageIdRequired : String := "Message ID is required"
def errInvalidMessageIdFormat : String := "Invalid message ID format"
def errNoPermDelete : String := "You do not have permission to delete messages"
def errMessageNotFound : String := "Message not found"
def errInvalidChannelId : String := "Invalid channel ID"
def confDeleted : String := "Message deleted successfully"
def errInvalidMsgOrUserId : String := "Invalid message ID format or user ID format"
def errContentRequired : String := "Content is required"
def errNoPermUpdate : String := "You do not have permission to update messages"
def confReactionUpdated : String := "Reaction updated successfully"
def evMessage : String := "message"
def evMessageDeleted : String := "messageDeleted"
def evMessageUpdated : String := "messageUpdated"
def evReactionUpdated : String := "reactionUpdated"

/-- `Message.findById`: first (unique, in a well-formed DB) message with
the given id. -/
def findMessageById (db : DB) (msgId : String) : Option Message :=
  db.messages.find? (fun m => decide (m.id = msgId))

/-- `Message.findOne({ _id: msgId, sender })`. -/
def findMessageByIdAndSender (db : DB) (msgId sender : String) : Option Message :=
  db.messages.find? (fun m => decide (m.id = msgId ∧ m.sender = sender))

/-- `Channel.findById`. -/
def findChannelById (db : DB) (channelId : String) : Option Channel :=
  db.channels.find? (fun ch => decide (ch.id = channelId))

/-- `DiscordServer.findOne({_id: serverId, members: {$elemMatch: {user,
roles: "send messages"}}})`. -/
def findServerWithSendPermission (db : DB) (serverId senderId : String) :
    Option DiscordServer :=
  db.servers.find? (fun s => decide (s.id = serverId ∧
    ∃ mem ∈ s.members, mem.user = senderId ∧ "send messages" ∈ mem.roles))

/-- `Message.findByIdAndDelete`: remove the first message with the id. -/
def removeMessageById : List Message → String → List Message
  | [], _ => []
  | m :: ms, msgId =>
    if m.id = msgId then ms else m :: removeMessageById ms msgId

/-- `Message.findByIdAndUpdate(msgId, { content }, { new: true })` on the
message list.  Modelled from the spec: the `Message` model file is not in
the sources; per the spec's data model, a content edit also refreshes the
last-modified timestamp (mongoose `timestamps`), here set to `now`. -/
def updateMessageContent : List Message → String → String → Nat → List Message
  | [], _, _, _ => []
  | m :: ms, msgId, content, now =>
    if m.id = msgId then { m with content := content, updatedAt := now } :: ms
    else m :: updateMessageContent ms msgId content now

/-- `message.save()`: write back the (mutated) document with this id. -/
def saveMessage : List Message → Message → List Message
  | [], _ => []
  | m :: ms, upd => if m.id = upd.id then upd :: ms else m :: saveMessage ms upd

/-- `users.splice(users.findIndex(u => u == userId), 1)`: remove the first
occurrence of `userId`. -/
def removeFirst : List String → String → List String
  | [], _ => []
  | x :: xs, u => if x = u then xs else x :: removeFirst xs u

/-- The reaction-array transition of `toggleReaction` (controller lines
194-213): locate the first entry whose emoji matches; if none, push a new
entry with the actor as sole member; if the actor is a member, splice the
actor out and drop the entry when its member list becomes empty; otherwise
push the actor onto the entry's member list. -/
def toggleReactionList : List Reaction → String → String → List Reaction
  | [], emoji, userId => [⟨emoji, [userId]⟩]
  | r :: rest, emoji, userId =>
    if r.emoji = emoji then
      if userId ∈ r.users then
        let users := removeFirst r.users userId
        if users = [] then rest else ⟨r.emoji, users⟩ :: rest
      else ⟨r.emoji, r.users ++ [userId]⟩ :: rest
    else r :: toggleReactionList rest emoji userId

/-- `Channel.findByIdAndUpdate(channelId, {$push: {messages: msgId},
$addToSet: {senders: senderId}})`. -/
def channelPushMessage (chs : List Channel) (channelId msgId senderId : String) :
    List Channel :=
  chs.map (fun ch =>
    if ch.id = channelId then
      { ch with
        messages := ch.messages ++ [msgId],
        senders := if senderId ∈ ch.senders then ch.senders
                   else ch.senders ++ [senderId] }
    else ch)

/-- `Channel.updateOne({messages: msgId}, {$pull: {messages: msgId}})`:
update the first channel whose list contains the id, pulling every
occurrence from it. -/
def channelPullMessage : List Channel → String → List Channel
  | [], _ => []
  | ch :: rest, msgId =>
    if msgId ∈ ch.messages then
      { ch with messages := ch.messages.filter (fun x => decide (x ≠ msgId)) } :: rest
    else ch :: channelPullMessage rest msgId

/-- `createMessage` (controller lines 8-60).  `newId` is the ObjectId Mongo
issues for the new document and `now` the creation instant; the Socket.IO
handle is taken as available (its absence is a transport failure outside
the data model). -/
def createMessage (db : DB) (channelId senderId content newId : String)
    (now : Nat) : StepResult :=
  if channelId = "" ∨ senderId = "" ∨ content = "" then
    ⟨.error 400 errMissingFields, db, []⟩
  else if ¬ (isValidObjectId channelId && isValidObjectId senderId) then
    ⟨.error 400 errInvalidIdFormat, db, []⟩
  else
    match findChannelById db channelId with
    | none => ⟨.error 404 errChannelNotFound, db, []⟩
    | some channel =>
      match findServerWithSendPermission db channel.server senderId with
      | none => ⟨.error 403 errNoPermSend, db, []⟩
      | some _ =>
        let newMessage : Message :=
          { id := newId, channel := channelId, sender := senderId,
            content := content, createdAt := now, updatedAt := now,
            reactions := [] }
        let db1 : DB := { db with messages := db.messages ++ [newMessage] }
        let db2 : DB :=
          { db1 with channels := channelPushMessage db1.channels channelId newId senderId }
        ⟨.message 201 newMessage, db2,
          [.dbCreateMessage newMessage,
           .emit channelId evMessage (.msg newMessage),
           .dbChannelPush channelId newId senderId]⟩

/-- Stable insertion of a message into a list sorted by `createdAt`
descending (`.sort({ createdAt: -1 })`). -/
def insertByCreatedDesc (m : Message) : List Message → List Message
  | [] => [m]
  | x :: xs =>
    if m.createdAt ≤ x.createdAt then x :: insertByCreatedDesc m xs
    else m :: x :: xs

/-- Sort a message list by `createdAt` descending. -/
def sortByCreatedAtDesc : List Message → List Message
  | [] => []
  | m :: ms => insertByCreatedDesc m (sortByCreatedAtDesc ms)

/-- `getMessagesByChannelId` (controller lines 62-87).  The `page` and
`limit` query parameters arrive already parsed; `none` means the query
string was absent, defaulted to `1` and `50` respectively. -/
def getMessagesByChannelId (db : DB) (channelId : String)
    (pageQ limitQ : Option Nat) : StepResult :=
  let page := pageQ.getD 1
  let limit := limitQ.getD 50
  let skip := (page - 1) * limit
  if channelId = "" then ⟨.error 400 errChannelIdRequired, db, []⟩
  else if ¬ isValidObjectId channelId then
    ⟨.error 400 errInvalidChannelIdFormat, db, []⟩
  else
    let messages :=
      ((sortByCreatedAtDesc
          (db.messages.filter (fun m => decide (m.channel = channelId)))).drop
         skip).take limit
    if messages.length = 0 then ⟨.error 404 errNoMessagesFound, db, []⟩
    else ⟨.messageList 200 messages, db, []⟩

/-- `deleteMessage` (controller lines 89-130). -/
def deleteMessage (db : DB) (messageId user : String) : StepResult :=
  if messageId = "" then ⟨.error 400 errMessageIdRequired, db, []⟩
  else if ¬ isValidObjectId messageId then
    ⟨.error 400 errInvalidMessageIdFormat, db, []⟩
  else
    match findMessageByIdAndSender db messageId user with
    | none => ⟨.error 403 errNoPermDelete, db, [.dbFindMessage messageId user]⟩
    | some _ =>
      match findMessageById db messageId with
      | none =>
        ⟨.error 404 errMessageNotFound, db,
          [.dbFindMessage messageId user, .dbDeleteMessage messageId]⟩
      | some deleted =>
        let db1 : DB := { db with messages := removeMessageById db.messages messageId }
        if deleted.channel = "" then
          ⟨.error 400 errInvalidChannelId, db1,
            [.dbFindMessage messageId user, .dbDeleteMessage messageId]⟩
        else
          let db2 : DB := { db1 with channels := channelPullMessage db1.channels messageId }
          ⟨.confirmation 200 confDeleted, db2,
            [.dbFindMessage messageId user, .dbDeleteMessage messageId,
             .emit deleted.channel evMessageDeleted (.msgId messageId),
             .dbChannelPull messageId]⟩

/-- `updateMessage` (controller lines 132-179).  `now` is the instant of
the edit (the refreshed last-modified timestamp). -/
def updateMessage (db : DB) (messageId userId content : String) (now : Nat) :
    StepResult :=
  if messageId = "" then ⟨.error 400 errMessageIdRequired, db, []⟩
  else if ¬ (isValidObjectId messageId && isValidObjectId userId) then
    ⟨.error 400 errInvalidMsgOrUserId, db, []⟩
  else if content = "" then ⟨.error 400 errContentRequired, db, []⟩
  else
    match findMessageByIdAndSender db messageId userId with
    | none => ⟨.error 403 errNoPermUpdate, db, [.dbFindMessage messageId userId]⟩
    | some found =>
      let updated : Message := { found with content := content, updatedAt := now }
      let db1 : DB := { db with messages := updateMessageContent db.messages messageId content now }
      if updated.channel = "" then
        ⟨.error 400 errInvalidChannelId, db1,
          [.dbFindMessage messageId userId, .dbUpdateMessage messageId content]⟩
      else
        ⟨.message 200 updated, db1,
          [.dbFindMessage messageId userId, .dbUpdateMessage messageId content,
           .emit updated.channel evMessageUpdated (.msg updated)]⟩

/-- `toggleReaction` (controller lines 181-223). -/
def toggleReaction (db : DB) (messageId emoji userId conversationId : String) :
    StepResult :=
  if ¬ (isValidObjectId messageId && isValidObjectId conversationId) then
    ⟨.error 400 errInvalidIdFormat, db, []⟩
  else
    match findMessageById db messageId with
    | none => ⟨.error 404 errMessageNotFound, db, [.dbReadMessage messageId]⟩
    | some message =>
      let updated : Message :=
        { message with reactions := toggleReactionList message.reactions emoji userId }
      let db1 : DB := { db with messages := saveMessage db.messages updated }
      ⟨.confirmation 200 confReactionUpdated, db1,
        [.dbReadMessage messageId, .dbSaveMessage updated,
         .emit conversationId evReactionUpdated (.msg updated)]⟩

/-- An actor `u` has a live reaction with symbol `e` in a reaction list:
the symbol-to-actor-set mapping the spec calls the Reaction Ledger. -/
def reacted (rs : List Reaction) (e u : String) : Prop :=
  ∃ r ∈ rs, r.emoji = e ∧ u ∈ r.users

instance (rs : List Reaction) (e u : String) : Decidable (reacted rs e u) := by
  unfold reacted; infer_instance

/-- Message ids are pairwise distinct (Mongo's `_id` uniqueness). -/
def msgIdsNodup (db : DB) : Prop := (db.messages.map Message.id).Nodup

/-- Some effect satisfying `p` occurs strictly before some effect
satisfying `q` in the trace. -/
def precedesB (p q : Effect → Bool) : List Effect → Bool
  | [] => false
  | x :: xs => (p x && xs.any q) || precedesB p q xs

/-- Is this effect a Socket.IO emit? -/
def isEmitEff : Effect → Bool
  | .emit _ _ _ => true
  | _ => false

/-- Is this effect a Channel-summary (Channel Index) write? -/
def isChannelUpdEff : Effect → Bool
  | .dbChannelPush _ _ _ => true
  | .dbChannelPull _ => true
  | _ => false

/-! Concrete fixtures: well-formed ObjectIds and small database states used
to evaluate the handlers on closed inputs. -/

def oidMsg : String := "aaaaaaaaaaaaaaaaaaaaaaaa"
def oidUserB : String := "bbbbbbbbbbbbbbbbbbbbbbbb"
def oidChan : String := "cccccccccccccccccccccccc"
def oidUserD : String := "dddddddddddddddddddddddd"
def oidServ : String := "eeeeeeeeeeeeeeeeeeeeeeee"
def oidConv : String := "ffffffffffffffffffffffff"
def oidNew : String := "123456789012345678901234"
def badId : String := "notanid"
def roleSendMessages : String := "send messages"
def contentHi : String := "hi"
def contentHello : String := "hello"
def emSmile : String := "smile"
def emHeart : String := "heart"

def m0 : Message :=
  { id := oidMsg, channel := oidChan, sender := oidUserB, content := contentHi,
    createdAt := 1, updatedAt := 1, reactions := [] }

def ch0 : Channel :=
  { id := oidChan, server := oidServ, messages := [oidMsg], senders := [oidUserB] }

def srv0 : DiscordServer :=
  { id := oidServ, members := [{ user := oidUserB, roles := [roleSendMessages] }] }

def db0 : DB := { messages := [m0], channels := [ch0], servers := [srv0] }

def dbEmpty : DB := { messages := [], channels := [], servers := [] }

def db3 : DB := { messages := [], channels := [ch0], servers := [] }

def m6 : Message := { m0 with reactions := [⟨emSmile, [oidUserD]⟩] }

def db6 : DB := { messages := [m6], channels := [ch0], servers := [srv0] }

def mkMsg9 (mid : String) (t : Nat) : Message :=
  { id := mid, channel := oidChan, sender := oidUserB, content := contentHi,
    createdAt := t, updatedAt := t, reactions := [] }

def idM1 : String := "m1"
def idM2 : String := "m2"
def idM3 : String := "m3"
def idM4 : String := "m4"
def idM5 : String := "m5"

def db9 : DB :=
  { messages :=
      [mkMsg9 idM1 1, mkMsg9 idM2 2, mkMsg9 idM3 3, mkMsg9 idM4 4, mkMsg9 idM5 5],
    channels := [], servers := [] }

/-! Helper lemmas about the store primitives. -/

theorem isValidObjectId_ne_empty {s : String} (h : isValidObjectId s = true) :
    s ≠ "" := by
  intro he
  rw [he] at h
  exact absurd h (by decide)

theorem find?_id_aux {l : List Message} {m : Message}
    (hnd : (l.map Message.id).Nodup) (hmem : m ∈ l) :
    l.find? (fun x => decide (x.id = m.id)) = some m := by
  induction l with
  | nil => cases hmem
  | cons h t ih =>
    simp only [List.map_cons, List.nodup_cons] at hnd
    rcases List.mem_cons.mp hmem with rfl | hmt
    · exact List.find?_cons_of_pos _ (by simp)
    · have hne : ¬ h.id = m.id := fun he => hnd.1 (he ▸ List.mem_map_of_mem _ hmt)
      rw [List.find?_cons_of_neg _ (by simp [hne])]
      exact ih hnd.2 hmt

theorem findMessageById_eq_some_of_mem {db : DB} {m : Message}
    (hnd : msgIdsNodup db) (hmem : m ∈ db.messages) :
    findMessageById db m.id = some m :=
  find?_id_aux hnd hmem

theorem findMessageById_eq_none {db : DB} {mid : String}
    (h : ∀ m ∈ db.messages, m.id ≠ mid) :
    findMessageById db mid = none := by
  unfold findMessageById
  rw [List.find?_eq_none]
  intro x hx
  simpa using h x hx

theorem find?_idSender_aux {l : List Message} {m : Message} {s : String}
    (hnd : (l.map Message.id).Nodup) (hmem : m ∈ l) (hs : m.sender = s) :
    l.find? (fun x => decide (x.id = m.id ∧ x.sender = s)) = some m := by
  induction l with
  | nil => cases hmem
  | cons h t ih =>
    simp only [List.map_cons, List.nodup_cons] at hnd
    rcases List.mem_cons.mp hmem with rfl | hmt
    · exact List.find?_cons_of_pos _ (by simp [hs])
    · have hne : ¬ h.id = m.id := fun he => hnd.1 (he ▸ List.mem_map_of_mem _ hmt)
      rw [List.find?_cons_of_neg _ (by simp [hne])]
      exact ih hnd.2 hmt

theorem findMessageByIdAndSender_eq_some {db : DB} {m : Message} {s : String}
    (hnd : msgIdsNodup db) (hmem : m ∈ db.messages) (hs : m.sender = s) :
    findMessageByIdAndSender db m.id s = some m :=
  find?_idSender_aux hnd hmem hs

theorem findMessageByIdAndSender_eq_none_wrong_sender {db : DB} {m : Message}
    {s : String} (hnd : msgIdsNodup db) (hmem : m ∈ db.messages)
    (hs : m.sender ≠ s) :
    findMessageByIdAndSender db m.id s = none := by
  unfold findMessageByIdAndSender
  rw [List.find?_eq_none]
  intro x hx
  simp only [decide_eq_true_eq, not_and]
  intro hid
  have hxm : x = m := List.inj_on_of_nodup_map hnd hx hmem hid
  rw [hxm]
  exact hs

theorem findMessageByIdAndSender_eq_none_absent {db : DB} {mid s : String}
    (h : ∀ m ∈ db.messages, m.id ≠ mid) :
    findMessageByIdAndSender db mid s = none := by
  unfold findMessageByIdAndSender
  rw [List.find?_eq_none]
  intro x hx
  simp only [decide_eq_true_eq, not_and]
  intro hid
  exact absurd hid (h x hx)

/-- C3: listByChannel on a channel with no messages.  The code returns the
`NotFound`-style 404 error, not an empty success result: this is the
amended statement. -/
theorem listByChannel_empty_is_notFound (db : DB) (channelId : String)
    (pageQ limitQ : Option Nat)
    (hv : isValidObjectId channelId = true)
    (hempty : ∀ m ∈ db.messages, m.channel ≠ channelId) :
    (getMessagesByChannelId db channelId pageQ limitQ).resp =
      .error 404 errNoMessagesFound := by
  have hne := isValidObjectId_ne_empty hv
  have hfil : db.messages.filter (fun m => decide (m.channel = channelId)) = [] := by
    rw [List.filter_eq_nil_iff]
    intro m hm
    simpa using hempty m hm
  simp [getMessagesByChannelId, hne, hv, hfil, sortByCreatedAtDesc]

/-- C3 witness: on a concrete channel with no messages, the handler
answers 404. -/
theorem listByChannel_empty_is_notFound_witness :
    isValidObjectId oidChan = true ∧
    (getMessagesByChannelId db3 oidChan (some 1) (some 50)).resp =
      .error 404 errNoMessagesFound :=
  ⟨by decide,
   listByChannel_empty_is_notFound db3 oidChan (some 1) (some 50) (by decide)
     (by intro m hm; cases hm)⟩

/-- C3 counterexample: `listByChannel(C, 1, 50)` on a channel `C` with no
messages is a 404 error response, not a success with an empty sequence as
the claim states. -/
theorem listByChannel_empty_channel_cex :
    (getMessagesByChannelId db3 oidChan (some 1) (some 50)).resp =
      .error 404 errNoMessagesFound ∧
    ∀ ms, (getMessagesByChannelId db3 oidChan (some 1) (some 50)).resp ≠
      .messageList 200 ms := by
  have h1 : (getMessagesByChannelId db3 oidChan (some 1) (some 50)).resp =
      .error 404 errNoMessagesFound := by decide
  refine ⟨h1, fun ms h => ?_⟩
  rw [h1] at h
  exact ApiResponse.noConfusion h

/-- C7 (amended): Delete with a well-formed id of a message that does not
exist fails with `Forbidden` (403), not `NotFound` — the authorship query
`findOne({_id, sender})` cannot distinguish absence from non-authorship —
and the store is unchanged; `InvalidInput` is still the answer for a
malformed id. -/
theorem deleteMessage_missing_is_forbidden (db : DB) (mid user : String) :
    ((isValidObjectId mid = true → (∀ m ∈ db.messages, m.id ≠ mid) →
        (deleteMessage db mid user).resp = .error 403 errNoPermDelete ∧
        (deleteMessage db mid user).db = db)) ∧
    (mid ≠ "" → isValidObjectId mid = false →
        (deleteMessage db mid user).resp = .error 400 errInvalidMessageIdFormat) := by
  constructor
  · intro hv habs
    have hne := isValidObjectId_ne_empty hv
    have hfind : findMessageByIdAndSender db mid user = none :=
      findMessageByIdAndSender_eq_none_absent habs
    simp [deleteMessage, hne, hv, hfind]
  · intro hne hvf
    simp [deleteMessage, hne, hvf]

/-- C7 witness: deleting a message absent from an empty store, with a
well-formed id, is 403 and leaves the store unchanged; a malformed id is
400. -/
theorem deleteMessage_missing_is_forbidden_witness :
    isValidObjectId oidMsg = true ∧
    ((isValidObjectId oidMsg = true → (∀ m ∈ dbEmpty.messages, m.id ≠ oidMsg) →
        (deleteMessage dbEmpty oidMsg oidUserB).resp = .error 403 errNoPermDelete ∧
        (deleteMessage dbEmpty oidMsg oidUserB).db = dbEmpty) ∧
     (badId ≠ "" → isValidObjectId badId = false →
        (deleteMessage dbEmpty badId oidUserB).resp =
          .error 400 errInvalidMessageIdFormat)) := by
  refine ⟨by decide, ?_, ?_⟩
  · exact (deleteMessage_missing_is_forbidden dbEmpty oidMsg oidUserB).1
  · exact (deleteMessage_missing_is_forbidden dbEmpty badId oidUserB).2

/-- C7 counterexample: with an empty message store and a well-formed
message id, Delete answers 403 `Forbidden`, never 404 `NotFound`, refuting
the claim that a missing message yields `NotFound`. -/
theorem deleteMessage_missing_cex :
    (deleteMessage dbEmpty oidMsg oidUserB).resp = .error 403 errNoPermDelete ∧
    ∀ s, (deleteMessage dbEmpty oidMsg oidUserB).resp ≠ .error 404 s := by
  have h1 : (deleteMessage dbEmpty oidMsg oidUserB).resp =
      .error 403 errNoPermDelete := by decide
  refine ⟨h1, fun s h => ?_⟩
  rw [h1] at h
  simp at h

theorem id_ne_of_mem_removeMessageById {l : List Message} {mid : String}
    (hnd : (l.map Message.id).Nodup) :
    ∀ x ∈ removeMessageById l mid, x.id ≠ mid := by
  induction l with
  | nil => intro x hx; cases hx
  | cons h t ih =>
    simp only [List.map_cons, List.nodup_cons] at hnd
    intro x hx
    by_cases hh : h.id = mid
    · simp only [removeMessageById, if_pos hh] at hx
      intro hxid
      apply hnd.1
      have hm := List.mem_map_of_mem Message.id hx
      rwa [hxid, ← hh] at hm
    · simp only [removeMessageById, if_neg hh] at hx
      rcases List.mem_cons.mp hx with rfl | hxt
      · exact hh
      · exact ih hnd.2 x hxt

theorem channelPullMessage_decomp (cpre : List Channel) (ch : Channel)
    (cpost : List Channel) (mid : String)
    (hpre : ∀ c ∈ cpre, mid ∉ c.messages) (hch : mid ∈ ch.messages) :
    channelPullMessage (cpre ++ ch :: cpost) mid =
      cpre ++
        { ch with messages := ch.messages.filter (fun x => decide (x ≠ mid)) } ::
          cpost := by
  induction cpre with
  | nil => simp [channelPullMessage, hch]
  | cons c cs ih =>
    have hc : mid ∉ c.messages := hpre c (List.mem_cons_self c cs)
    simp only [List.cons_append, channelPullMessage, if_neg hc]
    exact congrArg (c :: ·) (ih (fun x hx => hpre x (List.mem_cons_of_mem c hx)))

theorem length_filter_ne_add_count (l : List String) (mid : String) :
    (l.filter (fun x => decide (x ≠ mid))).length + l.count mid = l.length := by
  induction l with
  | nil => rfl
  | cons a t ih =>
    by_cases ha : a = mid
    · subst ha
      have hfc : List.filter (fun x => decide (x ≠ a)) (a :: t) =
          List.filter (fun x => decide (x ≠ a)) t := by simp
      rw [hfc, List.count_cons_self, List.length_cons]
      omega
    · have hfc : List.filter (fun x => decide (x ≠ mid)) (a :: t) =
          a :: List.filter (fun x => decide (x ≠ mid)) t := by simp [ha]
      have hcc : (a :: t).count mid = t.count mid := by
        simp [List.count_cons, ha]
      rw [hfc, hcc, List.length_cons, List.length_cons]
      omega

theorem count_filter_ne_self (l : List String) (mid : String) :
    (l.filter (fun x => decide (x ≠ mid))).count mid = 0 := by
  rw [List.count_eq_zero]
  intro hmem
  have := (List.mem_filter.mp hmem).2
  simp at this

/-- C1: Delete on an existing message.  A non-author caller gets 403 and
the state is untouched; the author's call succeeds, removes the message
from the store, and pulls its id out of the (unique) channel summary that
holds it, removing exactly one element of the list and touching no other
entry and no other channel. -/
theorem deleteMessage_author_gate
    (db : DB) (m : Message) (user : String)
    (cpre : List Channel) (ch : Channel) (cpost : List Channel)
    (hnd : msgIdsNodup db) (hmem : m ∈ db.messages)
    (hval : isValidObjectId m.id = true) (hchm : m.channel ≠ "")
    (hchs : db.channels = cpre ++ ch :: cpost)
    (hpre : ∀ c ∈ cpre, m.id ∉ c.messages)
    (honce : ch.messages.count m.id = 1) :
    (user ≠ m.sender →
      (deleteMessage db m.id user).resp = .error 403 errNoPermDelete ∧
      (deleteMessage db m.id user).db = db) ∧
    (user = m.sender →
      (deleteMessage db m.id user).resp = .confirmation 200 confDeleted ∧
      (∀ x ∈ (deleteMessage db m.id user).db.messages, x.id ≠ m.id) ∧
      ∃ msgs2,
        (deleteMessage db m.id user).db.channels =
          cpre ++ { ch with messages := msgs2 } :: cpost ∧
        msgs2.count m.id = 0 ∧
        msgs2.length + 1 = ch.messages.length ∧
        ∀ x, x ≠ m.id → msgs2.count x = ch.messages.count x) := by
  have hne := isValidObjectId_ne_empty hval
  constructor
  · intro huser
    have hfind : findMessageByIdAndSender db m.id user = none :=
      findMessageByIdAndSender_eq_none_wrong_sender hnd hmem (fun h => huser h.symm)
    simp [deleteMessage, hne, hval, hfind]
  · intro huser
    have hfind : findMessageByIdAndSender db m.id user = some m :=
      findMessageByIdAndSender_eq_some hnd hmem huser.symm
    have hfind2 : findMessageById db m.id = some m :=
      findMessageById_eq_some_of_mem hnd hmem
    have hmid : m.id ∈ ch.messages := by
      rw [← List.count_pos_iff]
      omega
    have hpull := channelPullMessage_decomp cpre ch cpost m.id hpre hmid
    refine ⟨?_, ?_, ?_⟩
    · simp [deleteMessage, hne, hval, hfind, hfind2, hchm]
    · intro x hx
      have hx2 : x ∈ removeMessageById db.messages m.id := by
        simpa [deleteMessage, hne, hval, hfind, hfind2, hchm] using hx
      exact id_ne_of_mem_removeMessageById hnd x hx2
    · refine ⟨ch.messages.filter (fun x => decide (x ≠ m.id)), ?_, ?_, ?_, ?_⟩
      · simp only [deleteMessage]
        simp only [hne, hval, hfind, hfind2, hchm]
        simp [hchs, hpull]
      · exact count_filter_ne_self ch.messages m.id
      · have := length_filter_ne_add_count ch.messages m.id
        omega
      · intro x hx
        exact List.count_filter (by simp [hx])

/-- C1 witness: in a one-message store whose channel summary lists that
message once, deletion by a non-author is 403 with the state intact, and
deletion by the author removes the message and its single channel-summary
entry. -/
theorem deleteMessage_author_gate_witness :
    (msgIdsNodup db0 ∧ m0 ∈ db0.messages ∧ isValidObjectId m0.id = true ∧
      db0.channels = [] ++ ch0 :: [] ∧ ch0.messages.count m0.id = 1) ∧
    ((oidUserD ≠ m0.sender →
        (deleteMessage db0 m0.id oidUserD).resp = .error 403 errNoPermDelete ∧
        (deleteMessage db0 m0.id oidUserD).db = db0) ∧
     (oidUserD = m0.sender →
        (deleteMessage db0 m0.id oidUserD).resp = .confirmation 200 confDeleted ∧
        (∀ x ∈ (deleteMessage db0 m0.id oidUserD).db.messages, x.id ≠ m0.id) ∧
        ∃ msgs2,
          (deleteMessage db0 m0.id oidUserD).db.channels =
            [] ++ { ch0 with messages := msgs2 } :: [] ∧
          msgs2.count m0.id = 0 ∧
          msgs2.length + 1 = ch0.messages.length ∧
          ∀ x, x ≠ m0.id → msgs2.count x = ch0.messages.count x)) ∧
    ((oidUserB ≠ m0.sender →
        (deleteMessage db0 m0.id oidUserB).resp = .error 403 errNoPermDelete ∧
        (deleteMessage db0 m0.id oidUserB).db = db0) ∧
     (oidUserB = m0.sender →
        (deleteMessage db0 m0.id oidUserB).resp = .confirmation 200 confDeleted ∧
        (∀ x ∈ (deleteMessage db0 m0.id oidUserB).db.messages, x.id ≠ m0.id) ∧
        ∃ msgs2,
          (deleteMessage db0 m0.id oidUserB).db.channels =
            [] ++ { ch0 with messages := msgs2 } :: [] ∧
          msgs2.count m0.id = 0 ∧
          msgs2.length + 1 = ch0.messages.length ∧
          ∀ x, x ≠ m0.id → msgs2.count x = ch0.messages.count x)) := by
  refine ⟨⟨by unfold msgIdsNodup; decide, by decide, by decide, by decide,
      by decide⟩, ?_, ?_⟩
  · exact deleteMessage_author_gate db0 m0 oidUserD [] ch0 []
      (by unfold msgIdsNodup; decide) (by decide) (by decide) (by decide)
      (by decide) (by intro c hc; cases hc) (by decide)
  · exact deleteMessage_author_gate db0 m0 oidUserB [] ch0 []
      (by unfold msgIdsNodup; decide) (by decide) (by decide) (by decide)
      (by decide) (by intro c hc; cases hc) (by decide)

theorem find?_id_updateMessageContent {l : List Message} {m : Message}
    {mid content : String} {now : Nat}
    (hf : l.find? (fun x => decide (x.id = mid)) = some m) :
    (updateMessageContent l mid content now).find? (fun x => decide (x.id = mid)) =
      some { m with content := content, updatedAt := now } := by
  induction l with
  | nil => simp at hf
  | cons h t ih =>
    by_cases hh : h.id = mid
    · rw [List.find?_cons_of_pos _ (by simp [hh])] at hf
      injection hf with hf
      subst hf
      simp only [updateMessageContent, if_pos hh]
      exact List.find?_cons_of_pos _ (by simp [hh])
    · rw [List.find?_cons_of_neg _ (by simp [hh])] at hf
      simp only [updateMessageContent, if_neg hh]
      rw [List.find?_cons_of_neg _ (by simp [hh])]
      exact ih hf

/-- C2: Update by the author with a well-formed id, an existing message
and non-empty content succeeds with 200: the returned message is the old
one with its content rewritten and its last-modified timestamp refreshed
to the (strictly newer) edit instant, the store now holds that updated
message under the same id, and a `messageUpdated` event carrying the full
updated message is emitted to the owning channel's feed. -/
theorem updateMessage_author_success
    (db : DB) (m : Message) (content : String) (now : Nat)
    (hnd : msgIdsNodup db) (hmem : m ∈ db.messages)
    (hvm : isValidObjectId m.id = true) (hvu : isValidObjectId m.sender = true)
    (hc : content ≠ "") (hchm : m.channel ≠ "") (hnow : m.updatedAt < now) :
    (updateMessage db m.id m.sender content now).resp =
      .message 200 { m with content := content, updatedAt := now } ∧
    findMessageById (updateMessage db m.id m.sender content now).db m.id =
      some { m with content := content, updatedAt := now } ∧
    Effect.emit m.channel evMessageUpdated
        (.msg { m with content := content, updatedAt := now }) ∈
      (updateMessage db m.id m.sender content now).trace ∧
    m.updatedAt < ({ m with content := content, updatedAt := now} : Message).updatedAt := by
  have hne := isValidObjectId_ne_empty hvm
  have hfind : findMessageByIdAndSender db m.id m.sender = some m :=
    findMessageByIdAndSender_eq_some hnd hmem rfl
  have hfind2 : findMessageById db m.id = some m :=
    findMessageById_eq_some_of_mem hnd hmem
  refine ⟨?_, ?_, ?_, hnow⟩
  · simp [updateMessage, hne, hvm, hvu, hc, hfind, hchm]
  · have hup := @find?_id_updateMessageContent db.messages m m.id content now hfind2
    simpa [updateMessage, findMessageById, hne, hvm, hvu, hc, hfind, hchm] using hup
  · simp [updateMessage, hne, hvm, hvu, hc, hfind, hchm]

/-- C2 witness: author rewrites the one stored message's content; the
response, the store and the emitted event all carry the updated message. -/
theorem updateMessage_author_success_witness :
    (msgIdsNodup db0 ∧ m0 ∈ db0.messages ∧ isValidObjectId m0.id = true ∧
      contentHello ≠ "" ∧ m0.updatedAt < 7) ∧
    ((updateMessage db0 m0.id m0.sender contentHello 7).resp =
        .message 200 { m0 with content := contentHello, updatedAt := 7 } ∧
     findMessageById (updateMessage db0 m0.id m0.sender contentHello 7).db m0.id =
        some { m0 with content := contentHello, updatedAt := 7 } ∧
     Effect.emit m0.channel evMessageUpdated
         (.msg { m0 with content := contentHello, updatedAt := 7 }) ∈
       (updateMessage db0 m0.id m0.sender contentHello 7).trace ∧
     m0.updatedAt <
       ({ m0 with content := contentHello, updatedAt := 7 } : Message).updatedAt) :=
  ⟨⟨by unfold msgIdsNodup; decide, by decide, by decide, by decide, by decide⟩,
   updateMessage_author_success db0 m0 contentHello 7
     (by unfold msgIdsNodup; decide) (by decide) (by decide) (by decide)
     (by decide) (by decide) (by decide)⟩

theorem removeFirst_eq_erase (l : List String) (u : String) :
    removeFirst l u = l.erase u := by
  induction l with
  | nil => rfl
  | cons x xs ih =>
    by_cases hx : x = u
    · subst hx
      rw [List.erase_cons_head]
      simp [removeFirst]
    · rw [List.erase_cons_tail (by simpa using hx)]
      simp only [removeFirst, if_neg hx]
      exact congrArg (x :: ·) ih

theorem removeFirst_append_self {l : List String} {u : String} (h : u ∉ l) :
    removeFirst (l ++ [u]) u = l := by
  induction l with
  | nil => simp [removeFirst]
  | cons x xs ih =>
    have hx : x ≠ u := fun he => h (he ▸ List.mem_cons_self x xs)
    simp only [List.cons_append, removeFirst, if_neg hx]
    exact congrArg (x :: ·) (ih (fun hm => h (List.mem_cons_of_mem x hm)))

theorem eq_singleton_of_removeFirst_eq_nil {l : List String} {u : String}
    (hmem : u ∈ l) (h : removeFirst l u = []) : l = [u] := by
  cases l with
  | nil => cases hmem
  | cons x xs =>
    by_cases hx : x = u
    · subst hx
      have hstep : removeFirst (x :: xs) x = xs := by simp [removeFirst]
      rw [hstep] at h
      rw [h]
    · simp only [removeFirst, if_neg hx] at h
      cases h

theorem toggle_absent (rs : List Reaction) (em u : String)
    (h : ∀ x ∈ rs, x.emoji ≠ em) :
    toggleReactionList rs em u = rs ++ [⟨em, [u]⟩] := by
  induction rs with
  | nil => rfl
  | cons r rest ih =>
    have hr : r.emoji ≠ em := h r (List.mem_cons_self r rest)
    simp only [toggleReactionList, if_neg hr, List.cons_append]
    exact congrArg (r :: ·) (ih (fun x hx => h x (List.mem_cons_of_mem r hx)))

theorem toggle_append_first (pre : List Reaction) (r : Reaction)
    (post : List Reaction) (em u : String)
    (hpre : ∀ x ∈ pre, x.emoji ≠ em) (hr : r.emoji = em) :
    toggleReactionList (pre ++ r :: post) em u =
      pre ++
        (if u ∈ r.users then
           (if removeFirst r.users u = [] then post
            else ⟨r.emoji, removeFirst r.users u⟩ :: post)
         else ⟨r.emoji, r.users ++ [u]⟩ :: post) := by
  induction pre with
  | nil => simp only [List.nil_append, toggleReactionList, if_pos hr]
  | cons p ps ih =>
    have hp : p.emoji ≠ em := hpre p (List.mem_cons_self p ps)
    simp only [List.cons_append, toggleReactionList, if_neg hp]
    exact congrArg (p :: ·) (ih (fun x hx => hpre x (List.mem_cons_of_mem p hx)))

theorem exists_first_emoji {rs : List Reaction} {em : String}
    (h : ¬ ∀ x ∈ rs, x.emoji ≠ em) :
    ∃ pre r post, rs = pre ++ r :: post ∧ r.emoji = em ∧
      ∀ x ∈ pre, x.emoji ≠ em := by
  induction rs with
  | nil => exact absurd (fun x hx => absurd hx (List.not_mem_nil x)) h
  | cons a t ih =>
    by_cases ha : a.emoji = em
    · exact ⟨[], a, t, rfl, ha, fun x hx => absurd hx (List.not_mem_nil x)⟩
    · have ht : ¬ ∀ x ∈ t, x.emoji ≠ em := by
        intro hall
        apply h
        intro x hx
        rcases List.mem_cons.mp hx with rfl | hxt
        · exact ha
        · exact hall x hxt
      obtain ⟨pre, r, post, heq, hr, hpre⟩ := ih ht
      refine ⟨a :: pre, r, post, by rw [heq, List.cons_append], hr, ?_⟩
      intro x hx
      rcases List.mem_cons.mp hx with rfl | hxp
      · exact ha
      · exact hpre x hxp

theorem reacted_perm {rs rs2 : List Reaction} {e v : String}
    (h : List.Perm rs rs2) : reacted rs e v ↔ reacted rs2 e v := by
  unfold reacted
  constructor
  · rintro ⟨r, hr, hp⟩
    exact ⟨r, h.mem_iff.mp hr, hp⟩
  · rintro ⟨r, hr, hp⟩
    exact ⟨r, h.mem_iff.mpr hr, hp⟩

theorem reacted_middle_congr {pre post : List Reaction} {em : String}
    {us1 us2 : List String} {e v : String}
    (h : ∀ w, w ∈ us1 ↔ w ∈ us2) :
    reacted (pre ++ ⟨em, us1⟩ :: post) e v ↔
      reacted (pre ++ ⟨em, us2⟩ :: post) e v := by
  unfold reacted
  constructor
  · rintro ⟨r, hr, he, hv⟩
    rcases List.mem_append.mp hr with hrp | hrc
    · exact ⟨r, List.mem_append.mpr (Or.inl hrp), he, hv⟩
    · rcases List.mem_cons.mp hrc with rfl | hrt
      · exact ⟨⟨em, us2⟩, List.mem_append.mpr (Or.inr (List.mem_cons_self _ _)),
          he, (h v).mp hv⟩
      · exact ⟨r, List.mem_append.mpr (Or.inr (List.mem_cons_of_mem _ hrt)), he, hv⟩
  · rintro ⟨r, hr, he, hv⟩
    rcases List.mem_append.mp hr with hrp | hrc
    · exact ⟨r, List.mem_append.mpr (Or.inl hrp), he, hv⟩
    · rcases List.mem_cons.mp hrc with rfl | hrt
      · exact ⟨⟨em, us1⟩, List.mem_append.mpr (Or.inr (List.mem_cons_self _ _)),
          he, (h v).mpr hv⟩
      · exact ⟨r, List.mem_append.mpr (Or.inr (List.mem_cons_of_mem _ hrt)), he, hv⟩

theorem reacted_middle_empty {pre post : List Reaction} {r : Reaction}
    {e v : String} (hr : r.users = []) :
    reacted (pre ++ r :: post) e v ↔ reacted (pre ++ post) e v := by
  unfold reacted
  constructor
  · rintro ⟨x, hx, he, hv⟩
    rcases List.mem_append.mp hx with hxp | hxc
    · exact ⟨x, List.mem_append.mpr (Or.inl hxp), he, hv⟩
    · rcases List.mem_cons.mp hxc with rfl | hxt
      · rw [hr] at hv
        cases hv
      · exact ⟨x, List.mem_append.mpr (Or.inr hxt), he, hv⟩
  · rintro ⟨x, hx, he, hv⟩
    rcases List.mem_append.mp hx with hxp | hxt
    · exact ⟨x, List.mem_append.mpr (Or.inl hxp), he, hv⟩
    · exact ⟨x, List.mem_append.mpr (Or.inr (List.mem_cons_of_mem r hxt)), he, hv⟩

/-- C4: one ToggleReaction transition on the reaction array, by cases.
With no entry for the symbol, a new sole-member entry is created; with an
entry the actor belongs to, the actor is removed — the entry disappearing
entirely when the actor was its only member — all other members and all
other entries being kept; with an entry the actor does not belong to, the
actor is added to that entry's member list.  Exactly one of these cases
fires per call. -/
theorem toggleReaction_three_cases (rs : List Reaction) (em u : String)
    (hnd : ∀ x ∈ rs, x.users.Nodup) :
    ((∀ x ∈ rs, x.emoji ≠ em) →
        toggleReactionList rs em u = rs ++ [⟨em, [u]⟩]) ∧
    (∀ pre r post, rs = pre ++ r :: post → (∀ x ∈ pre, x.emoji ≠ em) →
      r.emoji = em →
      ((u ∈ r.users →
          (r.users = [u] → toggleReactionList rs em u = pre ++ post) ∧
          (r.users ≠ [u] → ∃ users2,
             toggleReactionList rs em u = pre ++ ⟨em, users2⟩ :: post ∧
             users2 ≠ [] ∧ u ∉ users2 ∧
             ∀ v, v ≠ u → (v ∈ users2 ↔ v ∈ r.users))) ∧
       (u ∉ r.users →
          toggleReactionList rs em u = pre ++ ⟨em, r.users ++ [u]⟩ :: post))) := by
  constructor
  · exact toggle_absent rs em u
  · intro pre r post heq hpre hr
    subst heq
    have hsplit := toggle_append_first pre r post em u hpre hr
    constructor
    · intro humem
      rw [if_pos humem] at hsplit
      constructor
      · intro husers
        rw [husers] at hsplit
        simpa [removeFirst] using hsplit
      · intro husers
        have hrm : removeFirst r.users u ≠ [] := by
          intro hnil
          exact husers (eq_singleton_of_removeFirst_eq_nil humem hnil)
        rw [if_neg hrm] at hsplit
        refine ⟨removeFirst r.users u, by rw [hsplit, hr], hrm, ?_, ?_⟩
        · rw [removeFirst_eq_erase]
          exact (hnd r (List.mem_append.mpr (Or.inr (List.mem_cons_self r post)))).not_mem_erase
        · intro v hv
          rw [removeFirst_eq_erase]
          exact List.mem_erase_of_ne hv
    · intro humem
      rw [if_neg humem] at hsplit
      rw [hsplit, hr]

/-- C4 witness: a two-entry ledger exercising the decomposition
hypotheses. -/
theorem toggleReaction_three_cases_witness :
    ((∀ x ∈ [Reaction.mk emHeart [oidUserB]], x.users.Nodup) ∧
     (∀ x ∈ [Reaction.mk emHeart [oidUserB]], x.emoji ≠ emSmile) ∧
     ([Reaction.mk emHeart [oidUserB]] : List Reaction) =
       [] ++ ⟨emHeart, [oidUserB]⟩ :: []) ∧
    toggleReactionList [Reaction.mk emHeart [oidUserB]] emSmile oidUserD =
      [Reaction.mk emHeart [oidUserB]] ++ [⟨emSmile, [oidUserD]⟩] ∧
    toggleReactionList [Reaction.mk emHeart [oidUserB]] emHeart oidUserB =
      [] ++ [] := by
  refine ⟨⟨by decide, by decide, by decide⟩, ?_, ?_⟩
  · exact (toggleReaction_three_cases [Reaction.mk emHeart [oidUserB]] emSmile
      oidUserD (by decide)).1 (by decide)
  · exact (((toggleReaction_three_cases [Reaction.mk emHeart [oidUserB]] emHeart
      oidUserB (by decide)).2 [] ⟨emHeart, [oidUserB]⟩ [] (by decide)
      (by decide) (by decide)).1 (by decide)).1 (by decide)

/-- C5: ToggleReaction is an involution on the Reaction Ledger.  The
ledger is the spec's mapping from reaction symbol to set of reacting
actors; on a well-formed message (pairwise-distinct symbols, duplicate-free
member lists) two consecutive toggles with the same symbol and actor
restore that mapping exactly: every (symbol, actor) membership is as
before the first call. -/
theorem toggleReaction_involution (rs : List Reaction) (em u : String)
    (h1 : (rs.map Reaction.emoji).Nodup) (h2 : ∀ x ∈ rs, x.users.Nodup) :
    ∀ e v, reacted (toggleReactionList (toggleReactionList rs em u) em u) e v ↔
      reacted rs e v := by
  intro e v
  by_cases habs : ∀ x ∈ rs, x.emoji ≠ em
  · rw [toggle_absent rs em u habs]
    have h3 : toggleReactionList (rs ++ [(⟨em, [u]⟩ : Reaction)]) em u = rs := by
      rw [toggle_append_first rs ⟨em, [u]⟩ [] em u habs rfl]
      simp [removeFirst]
    rw [h3]
  · obtain ⟨pre, r, post, heq, hr, hpre⟩ := exists_first_emoji habs
    subst heq
    have hpost : ∀ x ∈ post, x.emoji ≠ em := by
      intro x hx hxe
      have hmap : (pre.map Reaction.emoji ++
          r.emoji :: post.map Reaction.emoji).Nodup := by simpa using h1
      have hnotin : r.emoji ∉ post.map Reaction.emoji :=
        (List.nodup_cons.mp hmap.of_append_right).1
      apply hnotin
      rw [hr, ← hxe]
      exact List.mem_map_of_mem Reaction.emoji hx
    have hrnd : r.users.Nodup :=
      h2 r (List.mem_append.mpr (Or.inr (List.mem_cons_self r post)))
    have htog1 := toggle_append_first pre r post em u hpre hr
    by_cases humem : u ∈ r.users
    · rw [if_pos humem] at htog1
      by_cases hempty : removeFirst r.users u = []
      · have husers : r.users = [u] :=
          eq_singleton_of_removeFirst_eq_nil humem hempty
        rw [if_pos hempty] at htog1
        rw [htog1]
        have habs2 : ∀ x ∈ pre ++ post, x.emoji ≠ em := by
          intro x hx
          rcases List.mem_append.mp hx with h | h
          exacts [hpre x h, hpost x h]
        rw [toggle_absent _ em u habs2]
        have hrEq : r = ⟨em, [u]⟩ := by
          cases r
          simp_all
        have hperm : List.Perm ((pre ++ post) ++ [(⟨em, [u]⟩ : Reaction)])
            (pre ++ r :: post) := by
          rw [hrEq, List.append_assoc]
          exact List.Perm.append_left pre (List.perm_append_singleton _ post)
        exact reacted_perm hperm
      · rw [if_neg hempty] at htog1
        rw [htog1]
        have hnot : u ∉ removeFirst r.users u := by
          rw [removeFirst_eq_erase]
          exact hrnd.not_mem_erase
        have htog2 := toggle_append_first pre ⟨r.emoji, removeFirst r.users u⟩
          post em u hpre hr
        rw [if_neg hnot] at htog2
        rw [htog2]
        have hmm : ∀ w, w ∈ removeFirst r.users u ++ [u] ↔ w ∈ r.users := by
          intro w
          rw [removeFirst_eq_erase]
          by_cases hw : w = u
          · subst hw
            simp [humem]
          · simp [hw, List.mem_erase_of_ne hw]
        exact reacted_middle_congr hmm
    · rw [if_neg humem] at htog1
      rw [htog1]
      have htog2 := toggle_append_first pre ⟨r.emoji, r.users ++ [u]⟩ post em u
        hpre hr
      have humem2 : u ∈ r.users ++ [u] :=
        List.mem_append.mpr (Or.inr (List.mem_singleton_self u))
      rw [if_pos humem2] at htog2
      rw [removeFirst_append_self humem] at htog2
      by_cases hnil : r.users = []
      · rw [if_pos hnil] at htog2
        rw [htog2]
        exact (reacted_middle_empty hnil).symm
      · rw [if_neg hnil] at htog2
        rw [htog2]

/-- C5 witness: one concrete double toggle (removal then re-addition on a
two-member entry) restores the concrete membership. -/
theorem toggleReaction_involution_witness :
    (([Reaction.mk emSmile [oidUserB, oidUserD]].map Reaction.emoji).Nodup ∧
     ∀ x ∈ [Reaction.mk emSmile [oidUserB, oidUserD]], x.users.Nodup) ∧
    (reacted
        (toggleReactionList
          (toggleReactionList [Reaction.mk emSmile [oidUserB, oidUserD]]
            emSmile oidUserB) emSmile oidUserB)
        emSmile oidUserB ↔
      reacted [Reaction.mk emSmile [oidUserB, oidUserD]] emSmile oidUserB) :=
  ⟨⟨by decide, by decide⟩,
   toggleReaction_involution [Reaction.mk emSmile [oidUserB, oidUserD]]
     emSmile oidUserB (by decide) (by decide) emSmile oidUserB⟩

theorem toggle_preserves_nonempty (rs : List Reaction) (em u : String)
    (h : ∀ r ∈ rs, r.users ≠ []) :
    ∀ r ∈ toggleReactionList rs em u, r.users ≠ [] := by
  induction rs with
  | nil =>
    intro r hr
    simp only [toggleReactionList, List.mem_singleton] at hr
    rw [hr]
    simp
  | cons a t ih =>
    intro r hr
    simp only [toggleReactionList] at hr
    by_cases ha : a.emoji = em
    · rw [if_pos ha] at hr
      by_cases hu : u ∈ a.users
      · rw [if_pos hu] at hr
        by_cases hnil : removeFirst a.users u = []
        · rw [if_pos hnil] at hr
          exact h r (List.mem_cons_of_mem a hr)
        · rw [if_neg hnil] at hr
          rcases List.mem_cons.mp hr with rfl | hrt
          · exact hnil
          · exact h r (List.mem_cons_of_mem a hrt)
      · rw [if_neg hu] at hr
        rcases List.mem_cons.mp hr with rfl | hrt
        · simp
        · exact h r (List.mem_cons_of_mem a hrt)
    · rw [if_neg ha] at hr
      rcases List.mem_cons.mp hr with rfl | hrt
      · exact h r (List.mem_cons_self r t)
      · exact ih (fun x hx => h x (List.mem_cons_of_mem a hx)) r hrt

theorem find?_id_saveMessage {l : List Message} {m upd : Message} {mid : String}
    (hf : l.find? (fun x => decide (x.id = mid)) = some m) (hid : upd.id = mid) :
    (saveMessage l upd).find? (fun x => decide (x.id = mid)) = some upd := by
  induction l with
  | nil => simp at hf
  | cons h t ih =>
    by_cases hh : h.id = mid
    · simp only [saveMessage, if_pos (hh.trans hid.symm)]
      exact List.find?_cons_of_pos _ (by simp [hid])
    · rw [List.find?_cons_of_neg _ (by simp [hh])] at hf
      have hne : h.id ≠ upd.id := fun he => hh (he.trans hid)
      simp only [saveMessage, if_neg hne]
      rw [List.find?_cons_of_neg _ (by simp [hh])]
      exact ih hf

/-- C6: a ToggleReaction call on a message whose persisted reaction
entries all have at least one member leaves the message, as saved back to
the store, with reaction entries that all still have at least one member:
no empty-member entry is ever persisted. -/
theorem toggleReaction_no_empty_entry
    (db : DB) (m : Message) (em u convId : String)
    (hvm : isValidObjectId m.id = true) (hvc : isValidObjectId convId = true)
    (hfind : findMessageById db m.id = some m)
    (hinv : ∀ r ∈ m.reactions, r.users ≠ []) :
    ∃ m2, findMessageById (toggleReaction db m.id em u convId).db m.id = some m2 ∧
      ∀ r ∈ m2.reactions, r.users ≠ [] := by
  have hvb : (isValidObjectId m.id && isValidObjectId convId) = true := by
    rw [hvm, hvc]
    rfl
  refine ⟨{ m with reactions := toggleReactionList m.reactions em u }, ?_, ?_⟩
  · have hrun : (toggleReaction db m.id em u convId).db =
        DB.mk
          (saveMessage db.messages
            ⟨m.id, m.channel, m.sender, m.content, m.createdAt, m.updatedAt,
              toggleReactionList m.reactions em u⟩)
          db.channels db.servers := by
      simp [toggleReaction, hvb, hfind]
    rw [hrun]
    exact find?_id_saveMessage hfind rfl
  · intro r hr
    exact toggle_preserves_nonempty m.reactions em u hinv r hr

/-- C6 witness: toggling the sole member of the sole entry removes the
entry rather than persisting it empty. -/
theorem toggleReaction_no_empty_entry_witness :
    (isValidObjectId m6.id = true ∧ isValidObjectId oidConv = true ∧
     findMessageById db6 m6.id = some m6 ∧
     ∀ r ∈ m6.reactions, r.users ≠ []) ∧
    (∃ m2, findMessageById (toggleReaction db6 m6.id emSmile oidUserD oidConv).db
        m6.id = some m2 ∧
      ∀ r ∈ m2.reactions, r.users ≠ []) :=
  ⟨⟨by decide, by decide, by decide, by decide⟩,
   toggleReaction_no_empty_entry db6 m6 emSmile oidUserD oidConv (by decide)
     (by decide) (by decide) (by decide)⟩

/-- C8 (amended): in every successful Create and every successful Delete
the broadcast emit comes FIRST: some Socket.IO emit occurs strictly before
some Channel-summary write in the effect trace, and no Channel-summary
write occurs before any emit.  (The claim's order — index update before
emit — is the reverse of what the code does.) -/
theorem emit_precedes_channelIndex
    (db db2 : DB) (cid sid content nid mid user : String) (now : Nat)
    (m : Message)
    (hc : (createMessage db cid sid content nid now).resp = .message 201 m)
    (hd : (deleteMessage db2 mid user).resp = .confirmation 200 confDeleted) :
    (precedesB isEmitEff isChannelUpdEff
        (createMessage db cid sid content nid now).trace = true ∧
     precedesB isChannelUpdEff isEmitEff
        (createMessage db cid sid content nid now).trace = false) ∧
    (precedesB isEmitEff isChannelUpdEff
        (deleteMessage db2 mid user).trace = true ∧
     precedesB isChannelUpdEff isEmitEff
        (deleteMessage db2 mid user).trace = false) := by
  constructor
  · by_cases h1 : cid = "" ∨ sid = "" ∨ content = ""
    · simp [createMessage, h1] at hc
    · by_cases h2 : (isValidObjectId cid && isValidObjectId sid) = true
      · cases h3 : findChannelById db cid with
        | none => simp [createMessage, h1, h2, h3] at hc
        | some channel =>
          cases h4 : findServerWithSendPermission db channel.server sid with
          | none => simp [createMessage, h1, h2, h3, h4] at hc
          | some srv =>
            simp [createMessage, h1, h2, h3, h4, precedesB, isEmitEff,
              isChannelUpdEff]
      · rw [Bool.not_eq_true] at h2
        simp [createMessage, h1, h2] at hc
  · by_cases h1 : mid = ""
    · simp [deleteMessage, h1] at hd
    · by_cases h2 : isValidObjectId mid = true
      · cases h3 : findMessageByIdAndSender db2 mid user with
        | none => simp [deleteMessage, h1, h2, h3] at hd
        | some found =>
          cases h4 : findMessageById db2 mid with
          | none => simp [deleteMessage, h1, h2, h3, h4] at hd
          | some deleted =>
            by_cases h5 : deleted.channel = ""
            · simp [deleteMessage, h1, h2, h3, h4, h5] at hd
            · simp [deleteMessage, h1, h2, h3, h4, h5, precedesB, isEmitEff,
                isChannelUpdEff]
      · rw [Bool.not_eq_true] at h2
        simp [deleteMessage, h1, h2] at hd

/-- C8 witness: a concrete successful create and a concrete successful
delete, with the emit-first orderings as in the amended statement. -/
theorem emit_precedes_channelIndex_witness :
    ((createMessage db0 oidChan oidUserB contentHi oidNew 5).resp =
        .message 201 (Message.mk oidNew oidChan oidUserB contentHi 5 5 []) ∧
     (deleteMessage db0 oidMsg oidUserB).resp = .confirmation 200 confDeleted) ∧
    ((precedesB isEmitEff isChannelUpdEff
        (createMessage db0 oidChan oidUserB contentHi oidNew 5).trace = true ∧
      precedesB isChannelUpdEff isEmitEff
        (createMessage db0 oidChan oidUserB contentHi oidNew 5).trace = false) ∧
     (precedesB isEmitEff isChannelUpdEff
        (deleteMessage db0 oidMsg oidUserB).trace = true ∧
      precedesB isChannelUpdEff isEmitEff
        (deleteMessage db0 oidMsg oidUserB).trace = false)) :=
  ⟨⟨by decide, by decide⟩,
   emit_precedes_channelIndex db0 db0 oidChan oidUserB contentHi oidNew oidMsg
     oidUserB 5 (Message.mk oidNew oidChan oidUserB contentHi 5 5 [])
     (by decide) (by decide)⟩

/-- C8 counterexample: in a concrete successful Create and a concrete
successful Delete, the trace contains both an emit and a Channel-summary
write, yet no Channel-summary write precedes any emit — refuting the
claimed index-update-before-emit order. -/
theorem channelIndex_before_emit_cex :
    ((createMessage db0 oidChan oidUserB contentHi oidNew 5).resp =
        .message 201 (Message.mk oidNew oidChan oidUserB contentHi 5 5 []) ∧
     (createMessage db0 oidChan oidUserB contentHi oidNew 5).trace.any
        isEmitEff = true ∧
     (createMessage db0 oidChan oidUserB contentHi oidNew 5).trace.any
        isChannelUpdEff = true ∧
     precedesB isChannelUpdEff isEmitEff
        (createMessage db0 oidChan oidUserB contentHi oidNew 5).trace = false) ∧
    ((deleteMessage db0 oidMsg oidUserB).resp = .confirmation 200 confDeleted ∧
     (deleteMessage db0 oidMsg oidUserB).trace.any isEmitEff = true ∧
     (deleteMessage db0 oidMsg oidUserB).trace.any isChannelUpdEff = true ∧
     precedesB isChannelUpdEff isEmitEff
        (deleteMessage db0 oidMsg oidUserB).trace = false) := by
  decide

theorem insertByCreatedDesc_ge (m : Message) (l : List Message)
    (h : ∀ x ∈ l, m.createdAt ≤ x.createdAt) :
    insertByCreatedDesc m l = l ++ [m] := by
  induction l with
  | nil => rfl
  | cons x xs ih =>
    have hx : m.createdAt ≤ x.createdAt := h x (List.mem_cons_self x xs)
    simp only [insertByCreatedDesc, if_pos hx, List.cons_append]
    exact congrArg (x :: ·) (ih fun y hy => h y (List.mem_cons_of_mem x hy))

theorem sortByCreatedAtDesc_of_ascending (ms : List Message)
    (h : ms.Pairwise (fun a b => a.createdAt < b.createdAt)) :
    sortByCreatedAtDesc ms = ms.reverse := by
  induction ms with
  | nil => rfl
  | cons m t ih =>
    rw [List.pairwise_cons] at h
    simp only [sortByCreatedAtDesc]
    rw [ih h.2, insertByCreatedDesc_ge m t.reverse
      (fun x hx => le_of_lt (h.1 x (List.mem_reverse.mp hx))),
      List.reverse_cons]

/-- C9: listByChannel is offset-based and most-recent-first.  If the
channel's stored messages (in creation order, strictly increasing creation
instants) are `ms`, then page `p` at size `s` answers exactly the slice of
the reverse-chronological order from offset `(p-1)*s`, `s` entries long,
whenever that page is non-empty; and omitted query parameters behave as
page 1, size 50. -/
theorem listByChannel_pagination
    (db : DB) (cid : String) (ms : List Message) (page limit : Nat)
    (hv : isValidObjectId cid = true)
    (hms : db.messages.filter (fun m => decide (m.channel = cid)) = ms)
    (hsorted : ms.Pairwise (fun a b => a.createdAt < b.createdAt))
    (hnonempty : (page - 1) * limit < ms.length) (hl : 1 ≤ limit) :
    (getMessagesByChannelId db cid (some page) (some limit)).resp =
      .messageList 200 ((ms.reverse.drop ((page - 1) * limit)).take limit) ∧
    getMessagesByChannelId db cid none none =
      getMessagesByChannelId db cid (some 1) (some 50) := by
  have hne := isValidObjectId_ne_empty hv
  constructor
  · have hs : sortByCreatedAtDesc
        (db.messages.filter (fun m => decide (m.channel = cid))) = ms.reverse := by
      rw [hms]
      exact sortByCreatedAtDesc_of_ascending ms hsorted
    have hcond : ¬ (limit = 0 ∨ ms.length - (page - 1) * limit = 0) := by omega
    simp [getMessagesByChannelId, hne, hv, hs, hcond]
  · rfl

/-- C9 witness: five messages created as m1..m5; page 1 of size 2 is
[m5, m4], page 2 is [m3, m2], page 3 is [m1]. -/
theorem listByChannel_pagination_witness :
    (getMessagesByChannelId db9 oidChan (some 1) (some 2)).resp =
      .messageList 200 [mkMsg9 idM5 5, mkMsg9 idM4 4] ∧
    (getMessagesByChannelId db9 oidChan (some 2) (some 2)).resp =
      .messageList 200 [mkMsg9 idM3 3, mkMsg9 idM2 2] ∧
    (getMessagesByChannelId db9 oidChan (some 3) (some 2)).resp =
      .messageList 200 [mkMsg9 idM1 1] := by
  refine ⟨?_, ?_, ?_⟩
  · exact ((listByChannel_pagination db9 oidChan
      [mkMsg9 idM1 1, mkMsg9 idM2 2, mkMsg9 idM3 3, mkMsg9 idM4 4, mkMsg9 idM5 5]
      1 2 (by decide) (by decide) (by decide) (by decide) (by decide)).1).trans
      (by decide)
  · exact ((listByChannel_pagination db9 oidChan
      [mkMsg9 idM1 1, mkMsg9 idM2 2, mkMsg9 idM3 3, mkMsg9 idM4 4, mkMsg9 idM5 5]
      2 2 (by decide) (by decide) (by decide) (by decide) (by decide)).1).trans
      (by decide)
  · exact ((listByChannel_pagination db9 oidChan
      [mkMsg9 idM1 1, mkMsg9 idM2 2, mkMsg9 idM3 3, mkMsg9 idM4 4, mkMsg9 idM5 5]
      3 2 (by decide) (by decide) (by decide) (by decide) (by decide)).1).trans
      (by decide)

/-- C10: a ToggleReaction call whose target feed id is not a well-formed
ObjectId fails with `InvalidInput` (400) before any message is read or
written: the state is unchanged and the effect trace is empty, whatever
the rest of the input (in particular even when the message id is
well-formed and the message exists). -/
theorem toggleReaction_invalid_feed (db : DB) (mid em u convId : String)
    (hconv : isValidObjectId convId = false) :
    (toggleReaction db mid em u convId).resp = .error 400 errInvalidIdFormat ∧
    (toggleReaction db mid em u convId).db = db ∧
    (toggleReaction db mid em u convId).trace = [] := by
  simp [toggleReaction, hconv]

/-- C10 witness: valid message id, message present in the store, malformed
feed id: 400, untouched state, empty trace. -/
theorem toggleReaction_invalid_feed_witness :
    isValidObjectId badId = false ∧
    isValidObjectId oidMsg = true ∧
    findMessageById db0 oidMsg = some m0 ∧
    ((toggleReaction db0 oidMsg emSmile oidUserD badId).resp =
        .error 400 errInvalidIdFormat ∧
     (toggleReaction db0 oidMsg emSmile oidUserD badId).db = db0 ∧
     (toggleReaction db0 oidMsg emSmile oidUserD badId).trace = []) :=
  ⟨by decide, by decide, by decide,
   toggleReaction_invalid_feed db0 oidMsg emSmile oidUserD badId (by decide)⟩

end DiscordClone
